import Mathlib

/-!
Formal model of the analogtv NTSC-simulation pipeline (savuor/xscreensaver).

The definitions below are shallow embeddings of the C++ sources:
machine `unsigned` arithmetic becomes `Nat` with explicit `% 2^32`,
`int` arithmetic becomes `Int` (C's arithmetic right shift on `int` is
floor division, embedded as `Int.fdiv _ (2^n)`), and `float`/`double`
arithmetic is embedded as exact rational arithmetic over `ℚ`.
Sequential array writes are embedded as function updates applied in
program order.
-/

namespace ATV

/-! ### NTSC geometry constants (analogtv.hpp enum) -/

def ANALOGTV_SCALE : ℕ := 1

def ANALOGTV_V : ℕ := 262 * ANALOGTV_SCALE

def ANALOGTV_TOP : ℕ := 30 * ANALOGTV_SCALE

def ANALOGTV_VISLINES : ℕ := 200 * ANALOGTV_SCALE

def ANALOGTV_BOT : ℕ := ANALOGTV_TOP + ANALOGTV_VISLINES

def ANALOGTV_H : ℕ := 912 * ANALOGTV_SCALE

def ANALOGTV_SYNC_START : ℕ := 0

def ANALOGTV_BP_START : ℕ := 4700 * ANALOGTV_H / 63500

def ANALOGTV_CB_START : ℕ := 5800 * ANALOGTV_H / 63500

def ANALOGTV_PIC_START : ℕ := 9400 * ANALOGTV_H / 63500

def ANALOGTV_PIC_LEN : ℕ := 52600 * ANALOGTV_H / 63500

def ANALOGTV_FP_START : ℕ := 62000 * ANALOGTV_H / 63500

def ANALOGTV_PIC_END : ℕ := ANALOGTV_FP_START

def ANALOGTV_WHITE_LEVEL : Int := 100

def ANALOGTV_BLACK_LEVEL : Int := 10

def ANALOGTV_BLANK_LEVEL : Int := 0

def ANALOGTV_SYNC_LEVEL : Int := -40

def ANALOGTV_CB_LEVEL : Int := 20

def ANALOGTV_SIGNAL_LEN : ℕ := ANALOGTV_V * ANALOGTV_H

def ANALOGTV_MAX_LINEHEIGHT : ℕ := 12

/-! ### C1: the LCG jump function `rnd_seek` (analogtv.cpp)

`FASTRND` is the 32-bit LCG `s ↦ s*1103515245 + 12345 (mod 2^32)`.
`rnd_seek` computes the affine map corresponding to `dist` steps of the
LCG by binary decomposition of `dist`, and applies it to `rnd`.  All
`unsigned` arithmetic is modelled as `Nat` reduced `% 2^32`. -/

def FASTRND_A : ℕ := 1103515245

def FASTRND_C : ℕ := 12345

/-- One step of the 32-bit `FASTRND` linear congruential generator. -/
def fastrndStep (s : ℕ) : ℕ := (s * FASTRND_A + FASTRND_C) % 2 ^ 32

/-- Loop body of `rnd_seek_ac` from src/src/analogtv.cpp: `a1, c1` is the
affine map for the current power-of-two stride, `a, c` the accumulated map,
`dist` the remaining distance.  `rnd_combine(&a1, &c1, a1, c1)` passes the
old `a1, c1` by value, so the stride map squares as
`(a1, c1) ← (a1², c1 + a1·c1)`. -/
def rnd_seekAux (a1 c1 a c dist : ℕ) : ℕ × ℕ :=
  if h : dist = 0 then (a, c)
  else
    let a' := if dist % 2 = 1 then a * a1 % 2 ^ 32 else a
    let c' := if dist % 2 = 1 then (c1 + a1 * c) % 2 ^ 32 else c
    rnd_seekAux (a1 * a1 % 2 ^ 32) ((c1 + a1 * c1) % 2 ^ 32) a' c' (dist / 2)
termination_by dist
decreasing_by exact Nat.div_lt_self (Nat.pos_of_ne_zero h) one_lt_two

/-- `rnd_seek(a, c, rnd, dist)` from src/src/analogtv.cpp: seeks the LCG
with multiplier `a` and increment `c` forward by `dist` steps from state
`rnd`. -/
def rnd_seek (a c rnd dist : ℕ) : ℕ :=
  let p := rnd_seekAux a c 1 0 dist
  (p.1 * rnd + p.2) % 2 ^ 32

/-- Loop body of the `rnd_seek` rewrite in the C++ port (AnalogTV): the
`rnd_combine` calls are inlined as sequential assignments, and the `c1`
update `c1 = (c1 + a1 * c1)` runs AFTER `a1 = (a1 * a1)`, so it reads the
already-squared `a1`. -/
def rnd_seekP3Aux (a1 c1 a c dist : ℕ) : ℕ × ℕ :=
  if h : dist = 0 then (a, c)
  else
    let a' := if dist % 2 = 1 then a * a1 % 2 ^ 32 else a
    let c' := if dist % 2 = 1 then (c1 + a1 * c) % 2 ^ 32 else c
    let a1' := a1 * a1 % 2 ^ 32
    rnd_seekP3Aux a1' ((c1 + a1' * c1) % 2 ^ 32) a' c' (dist / 2)
termination_by dist
decreasing_by exact Nat.div_lt_self (Nat.pos_of_ne_zero h) one_lt_two

/-- The C++ port's `rnd_seek` (the variant the AnalogTV class calls from
`init_signal` and `transit_channels`). -/
def rnd_seekP3 (a c rnd dist : ℕ) : ℕ :=
  let p := rnd_seekP3Aux a c 1 0 dist
  (p.1 * rnd + p.2) % 2 ^ 32

/-! ### C2: `AnalogInput::setup_sync` (analogtv.cpp)

The function fills each scan line with a sequence of `while` loops and then
adds the colourburst with `+=`/`-=` updates.  We embed one line as a chain of
range fills followed by the colourburst update loop. -/

/-- Fill samples `[lo, hi)` with value `v`, leaving the rest of the line. -/
def fillRange (lo hi : ℕ) (v : Int) (f : ℕ → Int) : ℕ → Int :=
  fun i => if lo ≤ i ∧ i < hi then v else f i

/-- Add `v` to the sample at position `p`. -/
def addAt (p : ℕ) (v : Int) (f : ℕ → Int) : ℕ → Int :=
  fun i => if i = p then f i + v else f i

/-- The colourburst loop of `setup_sync`: iteration `k` (for `k < n`) adds
`+CB` at `CB_START + 4k + 1` and `-CB` at `CB_START + 4k + 3`
(the source iterates `i = CB_START, CB_START+4, …` and updates
`sig[i+1] += CB; sig[i+3] -= CB`). -/
def cbLoop : ℕ → (ℕ → Int) → (ℕ → Int)
  | 0, f => f
  | n + 1, f =>
      addAt (ANALOGTV_CB_START + 4 * n * ANALOGTV_SCALE + 3)
        (-ANALOGTV_CB_LEVEL)
        (addAt (ANALOGTV_CB_START + 4 * n * ANALOGTV_SCALE + 1)
          ANALOGTV_CB_LEVEL (cbLoop n f))

/-- One scan line produced by `AnalogInput::setup_sync(do_cb, do_ssavi)`,
as a function from sample position to the written signed-char value.
Translated from the `while` loops of the source: on a vsync line
(`3 ≤ lineno < 7`) the loops fill `[SYNC_START, BP_START)` with BLANK and
`[BP_START, H)` with the sync level; otherwise they fill
`[SYNC_START, BP_START)` with the sync level, `[BP_START, PIC_START)` with
BLANK, `[PIC_START, FP_START)` with BLACK and `[FP_START, H)` with BLANK.
When `do_cb` is set, the colourburst loop then runs 9 times. -/
def setup_sync (do_cb do_ssavi : Bool) (lineno : ℕ) : ℕ → Int :=
  let synclevel : Int :=
    if do_ssavi then ANALOGTV_WHITE_LEVEL else ANALOGTV_SYNC_LEVEL
  let vsync : Bool := decide (3 ≤ lineno) && decide (lineno < 7)
  let base : ℕ → Int :=
    if vsync then
      fillRange ANALOGTV_BP_START ANALOGTV_H synclevel
        (fillRange ANALOGTV_SYNC_START ANALOGTV_BP_START ANALOGTV_BLANK_LEVEL
          (fun _ => 0))
    else
      fillRange ANALOGTV_FP_START ANALOGTV_H ANALOGTV_BLANK_LEVEL
        (fillRange ANALOGTV_PIC_START ANALOGTV_FP_START ANALOGTV_BLACK_LEVEL
          (fillRange ANALOGTV_BP_START ANALOGTV_PIC_START ANALOGTV_BLANK_LEVEL
            (fillRange ANALOGTV_SYNC_START ANALOGTV_BP_START synclevel
              (fun _ => 0))))
  if do_cb then cbLoop 9 base else base

/-- The per-line layout that `setup_sync` actually produces (the amended
form of claim C2): on a vsync line the sync level fills everything from
`BP_START` to the end of the line, so `PIC_START..FP_START` is BLACK and
`FP_START..H` is BLANK only on non-vsync lines. -/
def amended_sync_line (do_cb do_ssavi : Bool) (lineno : ℕ) : ℕ → Int :=
  fun i =>
    let synclevel : Int :=
      if do_ssavi then ANALOGTV_WHITE_LEVEL else ANALOGTV_SYNC_LEVEL
    let vsync : Bool := decide (3 ≤ lineno) && decide (lineno < 7)
    let base : Int :=
      if vsync then
        (if i < ANALOGTV_BP_START then ANALOGTV_BLANK_LEVEL else synclevel)
      else if i < ANALOGTV_BP_START then synclevel
      else if i < ANALOGTV_PIC_START then ANALOGTV_BLANK_LEVEL
      else if i < ANALOGTV_FP_START then ANALOGTV_BLACK_LEVEL
      else ANALOGTV_BLANK_LEVEL
    let cb : Int :=
      if do_cb ∧ ANALOGTV_CB_START ≤ i ∧ i < ANALOGTV_CB_START + 36 ∧
          (i - ANALOGTV_CB_START) % 4 = 1 then ANALOGTV_CB_LEVEL
      else if do_cb ∧ ANALOGTV_CB_START ≤ i ∧ i < ANALOGTV_CB_START + 36 ∧
          (i - ANALOGTV_CB_START) % 4 = 3 then -ANALOGTV_CB_LEVEL
      else 0
    base + cb

/-- The per-line layout asserted by claim C2 (transcribed from the spec's
words, §4.1): `SYNC_START..BP_START` BLANK on vsync lines else sync level;
`BP_START..PIC_START` sync level on vsync lines else BLANK;
`PIC_START..FP_START` BLACK and `FP_START..H` BLANK on every line; and the
colourburst summand when `do_cb` is set. -/
def spec_sync_line (do_cb do_ssavi : Bool) (lineno : ℕ) : ℕ → Int :=
  fun i =>
    let synclevel : Int :=
      if do_ssavi then ANALOGTV_WHITE_LEVEL else ANALOGTV_SYNC_LEVEL
    let vsync : Bool := decide (3 ≤ lineno) && decide (lineno < 7)
    let base : Int :=
      if i < ANALOGTV_BP_START then (if vsync then 0 else synclevel)
      else if i < ANALOGTV_PIC_START then (if vsync then synclevel else 0)
      else if i < ANALOGTV_FP_START then ANALOGTV_BLACK_LEVEL
      else ANALOGTV_BLANK_LEVEL
    let cb : Int :=
      if do_cb ∧ ANALOGTV_CB_START ≤ i ∧ i < ANALOGTV_CB_START + 36 ∧
          (i - ANALOGTV_CB_START) % 4 = 1 then ANALOGTV_CB_LEVEL
      else if do_cb ∧ ANALOGTV_CB_START ≤ i ∧ i < ANALOGTV_CB_START + 36 ∧
          (i - ANALOGTV_CB_START) % 4 = 3 then -ANALOGTV_CB_LEVEL
      else 0
    base + cb

/-! ### C6: `AnalogTV::setup_levels` (analogtv.cpp)

For a given `height` row of the level table, the source first sets every
`index` to 2 and then conditionally overwrites positions `0`, `height-1`,
`1`, `height-2` in program order.  We embed the row as the chain of these
writes (the claim is about the `index` component only; the `value`
component is a function of the `index`). -/

/-- Conditional array write: if `cond` holds, position `pos` becomes `v`. -/
def applyWrite (cond : Prop) [Decidable cond] (pos v : ℕ) (f : ℕ → ℕ) :
    ℕ → ℕ :=
  fun i => if cond ∧ i = pos then v else f i

/-- The `index` column of `leveltable[height]` after
`AnalogTV::setup_levels(avgheight)`, as the source's write sequence:
initialise to 2, then `[0] := 0` when `avgheight ≥ 3`, `[height-1] := 0`
when `avgheight ≥ 5` and `height ≥ 1`, `[1] := 1` when `avgheight ≥ 7`,
and `[height-2] := 1` when `avgheight ≥ 7` and `height ≥ 2`. -/
def setup_levels_index (avgheight : ℚ) (height : ℕ) : ℕ → ℕ :=
  applyWrite (7 ≤ avgheight ∧ 2 ≤ height) (height - 2) 1
    (applyWrite (7 ≤ avgheight) 1 1
      (applyWrite (5 ≤ avgheight ∧ 1 ≤ height) (height - 1) 0
        (applyWrite (3 ≤ avgheight) 0 0 (fun _ => 2))))

/-! ### C9: the wrap-around copy in `AnalogTV::draw` (analogtv.cpp)

After signal assembly completes (and before `sync()` is called), `draw`
executes `memcpy(&rx_signal[SIGNAL_LEN], &rx_signal[0], 2*H*sizeof(float))`.
`wrapCopy` is that copy applied to the assembled buffer; its result is the
buffer `sync()` reads. -/

/-- The memcpy in `draw`: positions `[SIGNAL_LEN, SIGNAL_LEN + 2H)` receive
the first `2H` samples; all other positions keep their assembled value. -/
def wrapCopy (f : ℕ → ℚ) : ℕ → ℚ :=
  fun i =>
    if ANALOGTV_SIGNAL_LEN ≤ i ∧ i < ANALOGTV_SIGNAL_LEN + 2 * ANALOGTV_H then
      f (i - ANALOGTV_SIGNAL_LEN)
    else f i

/-! ### C3: `AnalogTV::transit_channels` (the channel-change burst)

The `float` state (`noise_ampl`, the noise values) is embedded exactly over
`ℚ`; the 32-bit unsigned LCG state is a `Nat` reduced mod `2^32`. -/

def noise_decay : ℚ := 0.99995

/-- Value produced by `getUniformSymmetrical(fastrnd, range)` from the
current state, before the state advances: the state minus `0x7fffffff`
(with unsigned wraparound) is reinterpreted as a signed 32-bit value and
scaled by `range / 0x7fffffff`. -/
def uniformSymValue (fastrnd : ℕ) (range : ℚ) : ℚ :=
  let off : ℕ := (fastrnd % 2 ^ 32 + 2 ^ 32 - 0x7fffffff) % 2 ^ 32
  let signed : Int := if off ≤ 0x7fffffff then (off : Int) else (off : Int) - 2 ^ 32
  (signed : ℚ) * (range / (0x7fffffff : ℚ))

/-- Loop body of `transit_channels`: `i` is the current loop index, `todo`
the remaining iteration count, `fastrnd` and `noise_ampl` the running
state, `rx` the receiver buffer.  Each iteration draws a noise value, adds
`signal[(start + ofs + i) mod SIGNAL_LEN]·level·(1−noise_ampl) +
noise·noise_ampl` to `rx[i]`, and decays `noise_ampl`. -/
def transitLoop (signal : ℕ → Int) (ofs : ℕ) (level : ℚ) (start : ℕ) :
    ℕ → ℕ → ℕ → ℚ → (ℕ → ℚ) → (ℕ → ℚ)
  | _, 0, _, _, rx => rx
  | i, todo + 1, fastrnd, noise_ampl, rx =>
      let noise := uniformSymValue fastrnd 50
      let fastrnd' := fastrndStep fastrnd
      let idx := (start + ofs + i) % ANALOGTV_SIGNAL_LEN
      let rx' : ℕ → ℚ := fun j =>
        if j = i then
          rx j + ((signal idx : ℚ) * level * (1 - noise_ampl) +
            noise * noise_ampl)
        else rx j
      transitLoop signal ofs level start (i + 1) todo fastrnd'
        (noise_ampl * noise_decay) rx'

/-- `AnalogTV::transit_channels` for one reception: runs `skip` iterations
starting at sample `start`, with the noise LCG seeded by
`rnd_seek(A, C, randVal, start)` and `noise_ampl` starting at
`1.3 · 0.99995^start`. -/
def transit_channels (signal : ℕ → Int) (ofs : ℕ) (level : ℚ)
    (start skip randVal : ℕ) (rx : ℕ → ℚ) : ℕ → ℚ :=
  transitLoop signal ofs level start start skip
    (rnd_seekP3 FASTRND_A FASTRND_C randVal start)
    ((1.3 : ℚ) * noise_decay ^ start) rx

/-- Pointer advance of the transition loop of `analogtv_add_signal`
(src/src/analogtv.cpp): `s++` followed by wraparound when the pointer
passes the end of the signal. -/
def wrapNext (p : ℕ) : ℕ :=
  if ANALOGTV_SIGNAL_LEN ≤ p + 1 then 0 else p + 1

/-- Transition loop of `analogtv_add_signal` (src/src/analogtv.cpp), the
reference implementation of the channel-change burst: it walks a wrapped
signal pointer `p` (one `s++` per sample) instead of recomputing an index,
and otherwise draws the same noise stream and decaying amplitude. -/
def addSignalTransitLoop (signal : ℕ → Int) (level : ℚ) :
    ℕ → ℕ → ℕ → ℕ → ℚ → (ℕ → ℚ) → (ℕ → ℚ)
  | _, 0, _, _, _, rx => rx
  | i, todo + 1, p, fastrnd, noise_ampl, rx =>
      let noise := uniformSymValue fastrnd 50
      let fastrnd' := fastrndStep fastrnd
      let rx' : ℕ → ℚ := fun j =>
        if j = i then
          rx j + ((signal p : ℚ) * level * (1 - noise_ampl) +
            noise * noise_ampl)
        else rx j
      addSignalTransitLoop signal level (i + 1) todo (wrapNext p) fastrnd'
        (noise_ampl * noise_decay) rx'

/-- The transition part of `analogtv_add_signal` (src/src/analogtv.cpp):
`todo` samples starting at `start`, with the pointer seeded at
`(start + ofs) mod SIGNAL_LEN` and the noise LCG seeded by
`rnd_seek(A, C, randVal, start)`. -/
def analogtv_add_signal_transit (signal : ℕ → Int) (ofs : ℕ) (level : ℚ)
    (start todo randVal : ℕ) (rx : ℕ → ℚ) : ℕ → ℚ :=
  addSignalTransitLoop signal level start todo
    ((start + ofs) % ANALOGTV_SIGNAL_LEN)
    (rnd_seek FASTRND_A FASTRND_C randVal start)
    ((1.3 : ℚ) * noise_decay ^ start) rx

/-- The per-sample contribution asserted by claim C3 (transcribed from the
spec's words): `signal[(ofs + i) mod SIGNAL_LEN]·level·(1−amp) + noise·amp`
with `amp = 1.3·0.99995^i` and `noise` the value drawn from the second LCG
stream at global index `i`. -/
def spec_transit_addend (signal : ℕ → Int) (ofs : ℕ) (level noise : ℚ)
    (i : ℕ) : ℚ :=
  (signal ((ofs + i) % ANALOGTV_SIGNAL_LEN) : ℚ) * level *
      (1 - 1.3 * noise_decay ^ i) +
    noise * (1.3 * noise_decay ^ i)

/-! ### C7: `--size` validation (analogtv-cli.cpp `parseParams` / `main` /
`getBestSize`) -/

/-- Outcome of the size-relevant part of `main`: either usage is printed and
the process exits with the given code (no engine is constructed), or the
engine runs with the given output size. -/
inductive MainResult
  | usageExit (code : Int)
  | engineRun (width height : Int)
  deriving DecidableEq

/-- Validation of the `--size` argument list in `parseParams`: it must hold
exactly two integers, and both must be at least 64; otherwise parsing
fails (and `main` prints usage and returns −1). -/
def parseSizeArg (l : List Int) : Option (Int × Int) :=
  if l.length ≠ 2 then none
  else
    let w := l.getD 0 0
    let h := l.getD 1 0
    if w < 64 ∨ h < 64 then none
    else some (w, h)

/-- `getBestSize`: an explicitly given non-empty size wins over the maximum
source image size, and both dimensions are rounded down to even with
`&= ~1` (clearing the low bit, embedded as subtracting `x % 2`).
A `cv::Size` is empty when either dimension is `≤ 0`; an omitted `--size`
leaves the default empty size. -/
def getBestSize (maxw maxh : Int) (size : Option (Int × Int)) : Int × Int :=
  let out :=
    match size with
    | some s => if s.1 ≤ 0 ∨ s.2 ≤ 0 then (maxw, maxh) else s
    | none => (maxw, maxh)
  (out.1 - out.1 % 2, out.2 - out.2 % 2)

/-- The size-relevant path of `main`: parse the `--size` argument (when
given); on failure print usage and exit −1 before any engine is created;
otherwise run the engine at the size chosen by `getBestSize`. -/
def mainSize (sizeArg : Option (List Int)) (maxw maxh : Int) : MainResult :=
  match sizeArg with
  | none =>
      let b := getBestSize maxw maxh none
      .engineRun b.1 b.2
  | some l =>
      match parseSizeArg l with
      | none => .usageExit (-1)
      | some s =>
          let b := getBestSize maxw maxh (some s)
          .engineRun b.1 b.2

/-! ### C5: `AnalogInput::load_ximage` (analogtv.cpp)

All `int` arithmetic is embedded as `Int`; C's `>>` on a (possibly
negative) `int` is an arithmetic shift, embedded as floor division by a
power of two.  The `multiq` quadrature table is filled by the source from a
cosine expression; it enters the model as an arbitrary integer table
parameter, so every theorem below holds for the actual cosine table. -/

/-- Arithmetic shift right on `Int` (C's `>>` on signed values). -/
def sar (x : Int) (n : ℕ) : Int := Int.fdiv x (2 ^ n)

/-- A 16-bit-per-channel colour as used by `load_ximage`. -/
structure Color where
  red : ℕ
  green : ℕ
  blue : ℕ

/-- `pixToColor`: extract the 8-bit channels of a packed `0x00RRGGBB` pixel
and widen each to 16 bits with `v | (v << 8)`. -/
def pixToColor (p : ℕ) : Color :=
  let r := p / 2 ^ 16 % 2 ^ 8
  let g := p / 2 ^ 8 % 2 ^ 8
  let b := p % 2 ^ 8
  ⟨r + r * 2 ^ 8, g + g * 2 ^ 8, b + b * 2 ^ 8⟩

/-- State of the three per-row IIR filters of `load_ximage`: the `x` delay
lines (`fyx`, `fix`, `fqx`) and the `y` feedback lines (`fyy`, `fiy`,
`fqy`), all zero-initialised at the start of each destination row. -/
structure EncFilt where
  fyx : ℕ → Int
  fyy : ℕ → Int
  fix : ℕ → Int
  fiy : ℕ → Int
  fqx : ℕ → Int
  fqy : ℕ → Int

/-- Zero-initialised filter state. -/
def encFilt0 : EncFilt :=
  ⟨fun _ => 0, fun _ => 0, fun _ => 0, fun _ => 0, fun _ => 0, fun _ => 0⟩

/-- One sample of the three fixed-point IIR filters of `load_ximage`:
shift each delay line, feed `rawy·1897 ≫ 16` / `rawi·1413 ≫ 16` /
`rawq·75 ≫ 16` in, and compute the new outputs with the published
Butterworth coefficients (`−151, 8115, −38312, 36586` shifted right 16 for
Y; `16559, −72008, 109682` shifted right 16 for I; `2612, −9007, 10453`
shifted right 12 for Q).  Returns the new state and
`(filty, filti, filtq)`. -/
def encFiltStep (st : EncFilt) (rawy rawi rawq : Int) :
    EncFilt × (Int × Int × Int) :=
  let fyx : ℕ → Int := fun k =>
    if k = 6 then sar (rawy * 1897) 16 else st.fyx (k + 1)
  let fyy6 : Int :=
    (fyx 0 + fyx 6) + 4 * (fyx 1 + fyx 5) + 7 * (fyx 2 + fyx 4) + 8 * fyx 3 +
      sar (-151 * st.fyy 3 + 8115 * st.fyy 4 - 38312 * st.fyy 5 +
        36586 * st.fyy 6) 16
  let fyy : ℕ → Int := fun k => if k = 6 then fyy6 else st.fyy (k + 1)
  let fix : ℕ → Int := fun k =>
    if k = 3 then sar (rawi * 1413) 16 else st.fix (k + 1)
  let fiy3 : Int :=
    (fix 0 + fix 3) + 3 * (fix 1 + fix 2) +
      sar (16559 * st.fiy 1 - 72008 * st.fiy 2 + 109682 * st.fiy 3) 16
  let fiy : ℕ → Int := fun k => if k = 3 then fiy3 else st.fiy (k + 1)
  let fqx : ℕ → Int := fun k =>
    if k = 3 then sar (rawq * 75) 16 else st.fqx (k + 1)
  let fqy3 : Int :=
    (fqx 0 + fqx 3) + 3 * (fqx 1 + fqx 2) +
      sar (2612 * st.fqy 1 - 9007 * st.fqy 2 + 10453 * st.fqy 3) 12
  let fqy : ℕ → Int := fun k => if k = 3 then fqy3 else st.fqy (k + 1)
  (⟨fyx, fyy, fix, fiy, fqx, fqy⟩, (fyy6, fiy3, fqy3))

/-- Destination sample position for column `x`: `x + PIC_START + xoff`. -/
def loadDest (xoff : Int) (x : ℕ) : Int :=
  (x : Int) + (ANALOGTV_PIC_START : Int) + xoff

/-- Processing of one destination column `x` of a row of `load_ximage`:
masked columns are skipped entirely (`continue`); otherwise the two-row
YIQ average enters the three filters and the clamped composite sample is
written to `sigRow[x + PIC_START + xoff]`. -/
def loadRowStep (multiq : ℕ → Int) (col1 col2 : ℕ → Color) (mask : ℕ → Bool)
    (xoff : Int) (x : ℕ) (acc : EncFilt × (Int → Int)) :
    EncFilt × (Int → Int) :=
  if mask x = false then acc
  else
    let rawy : Int :=
      sar (5 * (col1 x).red + 11 * (col1 x).green + 2 * (col1 x).blue +
        5 * (col2 x).red + 11 * (col2 x).green + 2 * (col2 x).blue) 7
    let rawi : Int :=
      sar (10 * (col1 x).red - 4 * (col1 x).green - 5 * (col1 x).blue +
        10 * (col2 x).red - 4 * (col2 x).green - 5 * (col2 x).blue) 7
    let rawq : Int :=
      sar (3 * (col1 x).red - 8 * (col1 x).green + 5 * (col1 x).blue +
        3 * (col2 x).red - 8 * (col2 x).green + 5 * (col2 x).blue) 7
    let step := encFiltStep acc.1 rawy rawi rawq
    let composite0 : Int :=
      step.2.1 + sar (multiq x * step.2.2.1 + multiq (x + 3) * step.2.2.2) 12
    let composite1 : Int := sar (composite0 * 100) 14 + ANALOGTV_BLACK_LEVEL
    let composite : Int := min 125 (max 0 composite1)
    (step.1, fun j => if j = loadDest xoff x then composite else acc.2 j)

/-- The first `n` column iterations of one row of `load_ximage`. -/
def loadRowAux (multiq : ℕ → Int) (col1 col2 : ℕ → Color) (mask : ℕ → Bool)
    (xoff : Int) (row0 : Int → Int) : ℕ → EncFilt × (Int → Int)
  | 0 => (encFilt0, row0)
  | n + 1 =>
      loadRowStep multiq col1 col2 mask xoff n
        (loadRowAux multiq col1 col2 mask xoff row0 n)

/-- One full destination row of `load_ximage` (all `x_length` columns). -/
def loadRow (multiq : ℕ → Int) (col1 col2 : ℕ → Color) (mask : ℕ → Bool)
    (xoff : Int) (x_length : ℕ) (row0 : Int → Int) : Int → Int :=
  (loadRowAux multiq col1 col2 mask xoff row0 x_length).2

/-- Source column sampled for destination column `x`. -/
def loadPicx (img_w x_length x : ℕ) : ℕ := x * img_w / x_length

/-- Source rows sampled for destination row `y` (the vertical two-tap
average `picy1` / `picy2`). -/
def loadPicy1 (img_h y_scanlength y : ℕ) : ℕ := y * img_h / y_scanlength

def loadPicy2 (img_h y_scanlength y : ℕ) : ℕ :=
  (y * img_h + y_scanlength / 2) / y_scanlength

/-- Destination row of the signal matrix for loop row `y`:
`y - y_overscan + TOP + yoff`. -/
def loadRowIdx (y_overscan : ℕ) (yoff : Int) (y : ℕ) : Int :=
  (y : Int) - (y_overscan : Int) + (ANALOGTV_TOP : Int) + yoff

/-- Mask predicate for destination column `x` of loop row `y`: with a mask
image, the sampled mask pixel must be non-zero; without one, every column
is rendered. -/
def loadMask (maskIm : Option (ℕ → ℕ → ℕ)) (img_w img_h : ℕ)
    (x_length y_scanlength y x : ℕ) : Bool :=
  match maskIm with
  | some m =>
      decide (m (loadPicy1 img_h y_scanlength y)
        (loadPicx img_w x_length x) ≠ 0)
  | none => true

/-- The first `n` row iterations of `load_ximage`: each row `y` runs the
column loop on destination row `loadRowIdx y` of the signal matrix. -/
def loadXimageAux (pic : ℕ → ℕ → ℕ) (maskIm : Option (ℕ → ℕ → ℕ))
    (img_w img_h : ℕ) (multiq : ℕ → Int) (xoff yoff : Int)
    (x_length y_scanlength y_overscan : ℕ) (sig : Int → Int → Int) :
    ℕ → Int → Int → Int
  | 0 => sig
  | y + 1 =>
      let sig' :=
        loadXimageAux pic maskIm img_w img_h multiq xoff yoff x_length
          y_scanlength y_overscan sig y
      let r := loadRowIdx y_overscan yoff y
      let col1 : ℕ → Color := fun x =>
        pixToColor (pic (loadPicy1 img_h y_scanlength y)
          (loadPicx img_w x_length x))
      let col2 : ℕ → Color := fun x =>
        pixToColor (pic (loadPicy2 img_h y_scanlength y)
          (loadPicx img_w x_length x))
      let newRow :=
        loadRow multiq col1 col2
          (loadMask maskIm img_w img_h x_length y_scanlength y) xoff x_length
          (sig' r)
      fun i j => if i = r then newRow j else sig' i j

/-- Number of overscan lines above and below the visible area. -/
def lxYOverscan : ℕ := 5 * ANALOGTV_SCALE

/-- Destination width in samples: `x_length`, scaled by `target_w / out_w`
when a target width is given (C `int` division truncates toward zero). -/
def lxXLen (target_w out_w : Int) : ℕ :=
  (if 0 < target_w then
      Int.tdiv ((ANALOGTV_PIC_LEN : Int) * target_w) out_w
    else (ANALOGTV_PIC_LEN : Int)).toNat

/-- Destination height in scan lines: `y_scanlength`, scaled by
`target_h / out_h` when a target height is given. -/
def lxYLen (target_h out_h : Int) : ℕ :=
  (if 0 < target_h then
      Int.tdiv (((ANALOGTV_VISLINES : Int) + 2 * (lxYOverscan : Int)) *
        target_h) out_h
    else (ANALOGTV_VISLINES : Int) + 2 * (lxYOverscan : Int)).toNat

/-- Horizontal offset translated into NTSC samples. -/
def lxXoff (xoff0 out_w : Int) : Int :=
  Int.tdiv ((ANALOGTV_PIC_LEN : Int) * xoff0) out_w

/-- Vertical offset translated into NTSC lines (the source divides by
`out_w`, not `out_h`). -/
def lxYoff (yoff0 out_w : Int) : Int :=
  Int.tdiv ((ANALOGTV_VISLINES : Int) * yoff0) out_w

/-- `AnalogInput::load_ximage`: scale the destination extents, translate the
offsets into NTSC coordinates (note that the source divides `yoff` by
`out_w` as well), and run the row loop.  `pic` is the RGBA raster as packed
pixels, `maskIm` the optional mask raster, `sig` the signal matrix being
written. -/
def load_ximage (pic : ℕ → ℕ → ℕ) (maskIm : Option (ℕ → ℕ → ℕ))
    (img_w img_h : ℕ) (multiq : ℕ → Int)
    (xoff0 yoff0 target_w target_h out_w out_h : Int)
    (sig : Int → Int → Int) : Int → Int → Int :=
  loadXimageAux pic maskIm img_w img_h multiq (lxXoff xoff0 out_w)
    (lxYoff yoff0 out_w) (lxXLen target_w out_w) (lxYLen target_h out_h)
    lxYOverscan sig (lxYLen target_h out_h)

/-! ### C4: the luminance filter of `AnalogTV::ntsc_to_yiq` (analogtv.cpp)

The demodulator's Y loop is a delay-line state machine over `float` cells:
at iteration `n` the pointer `dp` sits `n` cells below its starting
position, `dp[0]` receives `signal[n]·0.0469904257251935·agclevel` and
`dp[8]` receives the filter output, which also is `yiq[n].y` (before
`brightadd`).  We embed the cells as a `ℤ`-indexed map (pointer position
`−n` at iteration `n`) with exact `ℚ` arithmetic; the source zeroes the
cells the early iterations can read, embedded as an all-zero start. -/

def ntscYGain : ℚ := 0.0469904257251935

/-- Write one delay-line cell. -/
def writeCell (f : ℤ → ℚ) (p : ℤ) (v : ℚ) : ℤ → ℚ :=
  fun c => if c = p then v else f c

/-- Iteration `n` of the Y loop of `ntsc_to_yiq`: write the scaled input to
`dp[0]`, then write
`(dp[6]+dp[0]) + 4(dp[5]+dp[1]) + 7(dp[4]+dp[2]) + 8·dp[3]
 − 0.0176648·dp[12] − 0.4860288·dp[10]` to `dp[8]`. -/
def ntscYIter (agclevel : ℚ) (signal : ℕ → ℚ) (cells : ℤ → ℚ) (n : ℕ) :
    ℤ → ℚ :=
  let c0 := writeCell cells (-(n : ℤ)) (signal n * ntscYGain * agclevel)
  let dp : ℤ → ℚ := fun j => c0 (-(n : ℤ) + j)
  writeCell c0 (-(n : ℤ) + 8)
    (1 * (dp 6 + dp 0) + 4 * (dp 5 + dp 1) + 7 * (dp 4 + dp 2) + 8 * dp 3 -
      (0.0176648 : ℚ) * dp 12 - (0.4860288 : ℚ) * dp 10)

/-- Delay-line state after the first `n` iterations of the Y loop. -/
def ntscYMachine (agclevel : ℚ) (signal : ℕ → ℚ) : ℕ → ℤ → ℚ
  | 0 => fun _ => 0
  | n + 1 =>
      ntscYIter agclevel signal (ntscYMachine agclevel signal n) n

/-- `yiq[n].y` before `brightadd`: the value the Y loop writes to `dp[8]`
at iteration `n`. -/
def ntscY (agclevel : ℚ) (signal : ℕ → ℚ) (n : ℕ) : ℚ :=
  ntscYMachine agclevel signal (n + 1) (-(n : ℤ) + 8)

/-- The luminance recurrence of `ntsc_to_yiq` written as a direct
recurrence (used to state the amended claim):
`y_n = (x_{n−6}+x_n) + 4(x_{n−5}+x_{n−1}) + 7(x_{n−4}+x_{n−2}) + 8·x_{n−3}
 − 0.0176648·y_{n−4} − 0.4860288·y_{n−2}` with
`x_m = signal_m·0.0469904257251935·agclevel` and `x, y` zero at negative
indices. -/
def specYRec (agclevel : ℚ) (signal : ℕ → ℚ) : ℕ → ℚ
  | n =>
      let x : ℤ → ℚ := fun m =>
        if m < 0 then 0 else signal m.toNat * ntscYGain * agclevel
      (x ((n : ℤ) - 6) + x n) + 4 * (x ((n : ℤ) - 5) + x ((n : ℤ) - 1)) +
        7 * (x ((n : ℤ) - 4) + x ((n : ℤ) - 2)) + 8 * x ((n : ℤ) - 3) -
        (0.0176648 : ℚ) *
          (if h : 4 ≤ n then specYRec agclevel signal (n - 4) else 0) -
        (0.4860288 : ℚ) *
          (if h : 2 ≤ n then specYRec agclevel signal (n - 2) else 0)
termination_by n => n
decreasing_by
  · omega
  · omega

/-- The luminance filter claimed by C4 for the decoder: the §4.2 encoder
recurrence (input gain `1897 ≫ 16`, feedback `−151, 8115, −38312, 36586`
each `≫ 16`) applied to the received signal, in exact integer arithmetic.
Transcribed from the claim's words for comparison with `ntscY`. -/
def specC4FixedY (signal : ℕ → Int) : ℕ → Int
  | n =>
      let x : ℤ → Int := fun m =>
        if m < 0 then 0 else sar (signal m.toNat * 1897) 16
      (x ((n : ℤ) - 6) + x n) + 4 * (x ((n : ℤ) - 5) + x ((n : ℤ) - 1)) +
        7 * (x ((n : ℤ) - 4) + x ((n : ℤ) - 2)) + 8 * x ((n : ℤ) - 3) +
        sar (-151 * (if h : 4 ≤ n then specC4FixedY signal (n - 4) else 0) +
          8115 * (if h : 3 ≤ n then specC4FixedY signal (n - 3) else 0) -
          38312 * (if h : 2 ≤ n then specC4FixedY signal (n - 2) else 0) +
          36586 * (if h : 1 ≤ n then specC4FixedY signal (n - 1) else 0)) 16
termination_by n => n
decreasing_by
  · omega
  · omega
  · omega
  · omega

/-! ### C8 and C10: `RandomControl` (control.cpp)

`cv::RNG` enters the model as an abstract random source: a state type `R`
with a `next` operation (`rng()`) and a `uniform` operation
(`rng.uniform(a, b)`).  Every theorem below quantifies over the source, so
it holds for the concrete multiply-with-carry generator of OpenCV.
`double` arithmetic is embedded as `ℚ`; C's `int` fields as `Int`
(a `double` assigned to an `int` truncates toward zero, `cTrunc`). -/

def POWERUP_DURATION : ℚ := 6

def POWERDOWN_DURATION : ℚ := 1

/-- C truncation of a `double` stored into an `int`. -/
def cTrunc (q : ℚ) : Int := if 0 ≤ q then ⌊q⌋ else ⌈q⌉

/-- Abstract random source standing for `cv::RNG`. -/
structure RNGOps (R : Type) where
  nxt : R → ℕ × R
  uniform : R → ℚ → ℚ → ℚ × R

/-- Result type of `Control::getNext`. -/
inductive OpType
  | NONE
  | SWITCH
  | QUIT
  deriving DecidableEq

/-- An operation returned by `getNext`: the current channel and the action
type. -/
structure Operation where
  channel : ℕ
  type : OpType

/-- State of a `RandomControl` (control.cpp fields). -/
structure RCState (R : Type) where
  rng : R
  fixSettings : Bool
  duration : ℚ
  fps : ℚ
  usePowerUpDown : Bool
  frameCounter : Int
  channel : ℕ
  lastFrame : Int
  channelLastFrame : Int
  fadeOutFirstFrame : Int
  powerUpLastFrame : Int
  lastBrightness : ℚ
  powerup : ℚ
  brightness : ℚ
  tint : ℚ
  color : ℚ
  contrast : ℚ
  height : ℚ
  width : ℚ
  squish : ℚ
  nChannels : ℕ

/-- `RandomControl::rotateKnobsSwitch`: when settings are not fixed and a
1-in-5 gate fires, optionally kick `tint` (1-in-4 gate, a seventh power of
a uniform draw times 180 with a random sign) and always drift `color` by a
uniform draw in `[0, 0.3]` with a random sign.  The short-circuit of
`!fixSettings && !(rng() % 5)` is preserved: with fixed settings the
generator is not consulted. -/
def rotateKnobsSwitch {R : Type} (ops : RNGOps R) (s : RCState R) :
    RCState R :=
  if s.fixSettings then s
  else
    let p1 := ops.nxt s.rng
    if p1.1 % 5 ≠ 0 then { s with rng := p1.2 }
    else
      let p2 := ops.nxt p1.2
      let pr : RCState R × R :=
        if p2.1 % 4 = 0 then
          let u := ops.uniform p2.2 (-1) 1
          let b := ops.nxt u.2
          ({ s with
              tint := s.tint + u.1 ^ 7 * 180 *
                (if b.1 % 2 = 1 then 1 else -1) }, b.2)
        else (s, p2.2)
      let u2 := ops.uniform pr.2 0 (0.3 : ℚ)
      let b2 := ops.nxt u2.2
      { pr.1 with
        rng := b2.2,
        color := pr.1.color + u2.1 * (if b2.1 % 2 = 1 then 1 else -1) }

/-- `RandomControl::getNext` (control.cpp): power-up and fade-out phases
forbid channel switching (power-up tracks `powerup = curTime`; fade-out
captures `lastBrightness` once and interpolates `brightness` down to
`−1.5`); otherwise, once `channelLastFrame` is reached, a new channel is
drawn, knobs may rotate, and SWITCH is returned.  Reaching `lastFrame`
overrides the result with QUIT.  `frameCounter` increments on every
call. -/
def getNext {R : Type} (ops : RNGOps R) (s : RCState R) :
    RCState R × Operation :=
  let curTime : ℚ := (s.frameCounter : ℚ) / s.fps
  let branch1 : RCState R × Bool :=
    if s.usePowerUpDown then
      if s.frameCounter < s.powerUpLastFrame then
        ({ s with powerup := curTime }, false)
      else if s.fadeOutFirstFrame ≤ s.frameCounter then
        let minBrightness : ℚ := -1.5
        let lastB : ℚ :=
          if s.lastBrightness ≤ -10 then s.brightness else s.lastBrightness
        let rate : ℚ := (s.duration - curTime) / POWERDOWN_DURATION
        ({ s with
            lastBrightness := lastB,
            brightness := minBrightness * (1 - rate) + lastB * rate }, false)
      else (s, true)
    else (s, true)
  let s1 := branch1.1
  let step2 : RCState R × OpType :=
    if branch1.2 = true ∧ s1.channelLastFrame ≤ s1.frameCounter then
      let u := ops.uniform s1.rng 0 6
      let n := ops.nxt u.2
      let s2 :=
        { s1 with
          rng := n.2,
          channelLastFrame :=
            cTrunc ((s1.frameCounter : ℚ) + s1.fps * (1 + u.1)),
          channel := n.1 % s1.nChannels }
      (rotateKnobsSwitch ops s2, OpType.SWITCH)
    else (s1, OpType.NONE)
  let s2 := step2.1
  let finalType : OpType :=
    if s2.lastFrame ≤ s2.frameCounter then OpType.QUIT else step2.2
  ({ s2 with frameCounter := s2.frameCounter + 1 }, ⟨s2.channel, finalType⟩)

/-- The state transition of one `getNext` call. -/
def getNextState {R : Type} (ops : RNGOps R) (s : RCState R) : RCState R :=
  (getNext ops s).1

/-- Trivial random source used to instantiate counterexamples on branches
that never consult the generator. -/
def unitOps : RNGOps Unit :=
  ⟨fun _ => (0, ()), fun _ a _ => (a, ())⟩

/-- The sentinel `-std::numeric_limits<double>::max()` that `run()` stores
into `lastBrightness` before any fade-out frame. -/
def lastBrightnessSentinel : ℚ := 2 ^ 971 - 2 ^ 1024

/-- Controller state on a short run (`duration = 3 s`, `fps = 30`,
power-up/down enabled) at frame 75: past the fade-out threshold
`(duration − POWERDOWN_DURATION)·fps = 60` but still inside the power-up
window `POWERUP_DURATION·fps = 180`.  The integer thresholds are exactly
the values `run()` computes for these parameters. -/
def c8FailState : RCState Unit where
  rng := ()
  fixSettings := false
  duration := 3
  fps := 30
  usePowerUpDown := true
  frameCounter := 75
  channel := 0
  lastFrame := 90
  channelLastFrame := 76
  fadeOutFirstFrame := 60
  powerUpLastFrame := 180
  lastBrightness := lastBrightnessSentinel
  powerup := 1000
  brightness := 1 / 50
  tint := 5
  color := 7 / 10
  contrast := 3 / 2
  height := 1
  width := 1
  squish := 0
  nChannels := 6

/-- Controller state on a `duration = 9 s`, `fps = 30` run with
power-up/down enabled, at the first fade-out frame 240 (past the power-up
window). -/
def c8OkState : RCState Unit where
  rng := ()
  fixSettings := false
  duration := 9
  fps := 30
  usePowerUpDown := true
  frameCounter := 240
  channel := 0
  lastFrame := 270
  channelLastFrame := 241
  fadeOutFirstFrame := 240
  powerUpLastFrame := 180
  lastBrightness := lastBrightnessSentinel
  powerup := 1000
  brightness := 1 / 50
  tint := 5
  color := 7 / 10
  contrast := 3 / 2
  height := 1
  width := 1
  squish := 0
  nChannels := 6

/-- Controller state whose frame counter has already reached
`duration·fps` (`lastFrame`), so `getNext` returns QUIT. -/
def c10State : RCState Unit where
  rng := ()
  fixSettings := false
  duration := 3
  fps := 30
  usePowerUpDown := false
  frameCounter := 100
  channel := 2
  lastFrame := 90
  channelLastFrame := 120
  fadeOutFirstFrame := 60
  powerUpLastFrame := 180
  lastBrightness := lastBrightnessSentinel
  powerup := 1000
  brightness := 1 / 50
  tint := 5
  color := 7 / 10
  contrast := 3 / 2
  height := 1
  width := 1
  squish := 0
  nChannels := 6

/-! ## Theorems -/

/-! ### C1 -/

theorem affine_mod_left (p q x : ℕ) :
    (p % 2 ^ 32 * x + q % 2 ^ 32) % 2 ^ 32 = (p * x + q) % 2 ^ 32 :=
  ((Nat.mod_modEq p _).mul_right x).add (Nat.mod_modEq q _)

theorem affine_mod_arg (a c y : ℕ) :
    (a * (y % 2 ^ 32) + c) % 2 ^ 32 = (a * y + c) % 2 ^ 32 :=
  ((Nat.mod_modEq y _).mul_left a).add_right c

/-- Loop invariant of `rnd_seek`: if `(a1, c1)` encodes `m` LCG steps and
`(a, c)` encodes `j` LCG steps, the loop result encodes `j + m·dist`
steps. -/
theorem rnd_seekAux_spec :
    ∀ dist a1 c1 a c m j,
      (∀ x, (a1 * x + c1) % 2 ^ 32 = fastrndStep^[m] (x % 2 ^ 32)) →
      (∀ x, (a * x + c) % 2 ^ 32 = fastrndStep^[j] (x % 2 ^ 32)) →
      ∀ x,
        ((rnd_seekAux a1 c1 a c dist).1 * x +
            (rnd_seekAux a1 c1 a c dist).2) % 2 ^ 32 =
          fastrndStep^[j + m * dist] (x % 2 ^ 32) := by
  intro dist
  induction dist using Nat.strong_induction_on with
  | _ dist ih =>
    intro a1 c1 a c m j h1 h2 x
    by_cases hd : dist = 0
    · subst hd
      rw [rnd_seekAux]
      simpa using h2 x
    · rw [rnd_seekAux, dif_neg hd]
      have hsq : ∀ y, (a1 * a1 % 2 ^ 32 * y + (c1 + a1 * c1) % 2 ^ 32) %
          2 ^ 32 = fastrndStep^[m + m] (y % 2 ^ 32) := by
        intro y
        calc (a1 * a1 % 2 ^ 32 * y + (c1 + a1 * c1) % 2 ^ 32) % 2 ^ 32
            = (a1 * a1 * y + (c1 + a1 * c1)) % 2 ^ 32 := affine_mod_left _ _ _
          _ = (a1 * (a1 * y + c1) + c1) % 2 ^ 32 := by ring_nf
          _ = (a1 * ((a1 * y + c1) % 2 ^ 32) + c1) % 2 ^ 32 :=
              (affine_mod_arg _ _ _).symm
          _ = fastrndStep^[m] ((a1 * y + c1) % 2 ^ 32 % 2 ^ 32) :=
              h1 ((a1 * y + c1) % 2 ^ 32)
          _ = fastrndStep^[m] ((a1 * y + c1) % 2 ^ 32) := by
              rw [Nat.mod_mod_of_dvd _ dvd_rfl]
          _ = fastrndStep^[m] (fastrndStep^[m] (y % 2 ^ 32)) := by rw [h1 y]
          _ = fastrndStep^[m + m] (y % 2 ^ 32) :=
              (Function.iterate_add_apply _ m m _).symm
      have hacc : ∀ y,
          ((if dist % 2 = 1 then a * a1 % 2 ^ 32 else a) * y +
              (if dist % 2 = 1 then (c1 + a1 * c) % 2 ^ 32 else c)) %
            2 ^ 32 =
          fastrndStep^[j + m * (dist % 2)] (y % 2 ^ 32) := by
        intro y
        by_cases hodd : dist % 2 = 1
        · rw [if_pos hodd, if_pos hodd, hodd]
          calc (a * a1 % 2 ^ 32 * y + (c1 + a1 * c) % 2 ^ 32) % 2 ^ 32
              = (a * a1 * y + (c1 + a1 * c)) % 2 ^ 32 := affine_mod_left _ _ _
            _ = (a1 * (a * y + c) + c1) % 2 ^ 32 := by ring_nf
            _ = (a1 * ((a * y + c) % 2 ^ 32) + c1) % 2 ^ 32 :=
                (affine_mod_arg _ _ _).symm
            _ = fastrndStep^[m] ((a * y + c) % 2 ^ 32 % 2 ^ 32) :=
                h1 ((a * y + c) % 2 ^ 32)
            _ = fastrndStep^[m] ((a * y + c) % 2 ^ 32) := by
                rw [Nat.mod_mod_of_dvd _ dvd_rfl]
            _ = fastrndStep^[m] (fastrndStep^[j] (y % 2 ^ 32)) := by
                rw [h2 y]
            _ = fastrndStep^[j + m * 1] (y % 2 ^ 32) := by
                rw [(Function.iterate_add_apply _ m j _).symm]
                congr 1
                omega
        · rw [if_neg hodd, if_neg hodd]
          have hz : dist % 2 = 0 := by omega
          rw [hz]
          simpa using h2 y
      have hrec := ih (dist / 2)
        (Nat.div_lt_self (Nat.pos_of_ne_zero hd) one_lt_two)
        (a1 * a1 % 2 ^ 32) ((c1 + a1 * c1) % 2 ^ 32)
        (if dist % 2 = 1 then a * a1 % 2 ^ 32 else a)
        (if dist % 2 = 1 then (c1 + a1 * c) % 2 ^ 32 else c)
        (m + m) (j + m * (dist % 2)) hsq hacc x
      rw [show j + m * dist = j + m * (dist % 2) + (m + m) * (dist / 2) from
        by
          conv_lhs => rw [← Nat.mod_add_div dist 2]
          ring]
      exact hrec

/-- The analogtv.cpp jump function is exact:
`rnd_seek(1103515245, 12345, r, d)` is the `d`-fold iterate of the 32-bit
LCG step `s ↦ (1103515245·s + 12345) mod 2^32` applied to the 32-bit seed
`r`.  (This is the behaviour claim C1 asserts; the C++ port's rewrite of
the same function violates it, see below.) -/
theorem rnd_seek_iterates (r d : ℕ) (hr : r < 2 ^ 32) :
    rnd_seek FASTRND_A FASTRND_C r d = fastrndStep^[d] r := by
  have h1 : ∀ x, (FASTRND_A * x + FASTRND_C) % 2 ^ 32 =
      fastrndStep^[1] (x % 2 ^ 32) := by
    intro x
    have e1 : fastrndStep^[1] (x % 2 ^ 32) =
        (x % 2 ^ 32 * FASTRND_A + FASTRND_C) % 2 ^ 32 := rfl
    have e2 : (x % 2 ^ 32 * FASTRND_A + FASTRND_C) % 2 ^ 32 =
        (x * FASTRND_A + FASTRND_C) % 2 ^ 32 :=
      ((Nat.mod_modEq x _).mul_right _).add_right _
    rw [e1, e2, Nat.mul_comm]
  have h2 : ∀ x, (1 * x + 0) % 2 ^ 32 = fastrndStep^[0] (x % 2 ^ 32) := by
    intro x
    simp
  have h := rnd_seekAux_spec d FASTRND_A FASTRND_C 1 0 1 0 h1 h2 r
  unfold rnd_seek
  dsimp only
  rw [h, Nat.mod_eq_of_lt hr]
  congr 1
  omega

/-- Concrete instance of the exactness of the analogtv.cpp jump at seed
123 and distance 5. -/
theorem rnd_seek_iterates_witness :
    123 < 2 ^ 32 ∧
      rnd_seek FASTRND_A FASTRND_C 123 5 = fastrndStep^[5] 123 :=
  ⟨by norm_num, rnd_seek_iterates 123 5 (by norm_num)⟩

/-- C1 (evaluation at the failing input): the C++ port's inlined `rnd_seek`
is NOT the `d`-fold LCG iterate — already at seed 0 and distance 2 it
returns a different state, because its `c1` update reads the
already-squared `a1` — while the analogtv.cpp original is exact at the
same input. -/
theorem rnd_seekP3_failing_input :
    rnd_seekP3 FASTRND_A FASTRND_C 0 2 ≠ fastrndStep^[2] 0 ∧
      rnd_seek FASTRND_A FASTRND_C 0 2 = fastrndStep^[2] 0 := by
  constructor
  · have h1 : rnd_seekP3Aux FASTRND_A FASTRND_C 1 0 2 =
        rnd_seekP3Aux (FASTRND_A * FASTRND_A % 2 ^ 32)
          ((FASTRND_C + FASTRND_A * FASTRND_A % 2 ^ 32 * FASTRND_C) % 2 ^ 32)
          1 0 1 := by
      rw [rnd_seekP3Aux]
      norm_num
    have h2 : ∀ a1 c1 : ℕ, rnd_seekP3Aux a1 c1 1 0 1 =
        (a1 % 2 ^ 32, (c1 + a1 * 0) % 2 ^ 32) := by
      intro a1 c1
      rw [rnd_seekP3Aux]
      norm_num
      rw [rnd_seekP3Aux]
      norm_num
    unfold rnd_seekP3
    rw [h1, h2]
    simp only [Function.iterate_succ_apply, Function.iterate_zero_apply]
    norm_num [fastrndStep, FASTRND_A, FASTRND_C]
  · exact rnd_seek_iterates 0 2 (by norm_num)

/-! ### C2 -/

/-- Closed form of the colourburst loop: after `n` iterations, position `i`
has gained `+CB` on residue-1 positions and `−CB` on residue-3 positions of
the covered range. -/
theorem cbLoop_apply (n : ℕ) (f : ℕ → Int) (i : ℕ) :
    cbLoop n f i = f i +
      (if ANALOGTV_CB_START ≤ i ∧ i < ANALOGTV_CB_START + 4 * n ∧
          (i - ANALOGTV_CB_START) % 4 = 1 then ANALOGTV_CB_LEVEL
        else if ANALOGTV_CB_START ≤ i ∧ i < ANALOGTV_CB_START + 4 * n ∧
          (i - ANALOGTV_CB_START) % 4 = 3 then -ANALOGTV_CB_LEVEL
        else 0) := by
  induction n with
  | zero =>
      simp only [cbLoop]
      split_ifs <;> omega
  | succ n ih =>
      simp only [cbLoop, addAt, ih, ANALOGTV_SCALE, Nat.mul_one]
      split_ifs <;> omega

/-- C2 (amended): the layout `setup_sync` writes, for every sample of every
line: on vsync lines the sync level fills all of `[BP_START, H)`; on other
lines the spec's BLANK / BLACK / BLANK segmentation holds; the colourburst
summand is added on top when requested. -/
theorem setup_sync_layout (do_cb do_ssavi : Bool) (lineno i : ℕ)
    (hi : i < ANALOGTV_H) :
    setup_sync do_cb do_ssavi lineno i =
      amended_sync_line do_cb do_ssavi lineno i := by
  have hi' : i < 912 := by
    simpa [ANALOGTV_H, ANALOGTV_SCALE] using hi
  unfold setup_sync amended_sync_line
  cases do_cb <;> cases hv : (decide (3 ≤ lineno) && decide (lineno < 7)) <;>
    · simp only [hv, cbLoop_apply, fillRange, Bool.false_eq_true, if_false,
        if_true, ANALOGTV_SYNC_START, ANALOGTV_BP_START, ANALOGTV_PIC_START,
        ANALOGTV_FP_START, ANALOGTV_H, ANALOGTV_CB_START, ANALOGTV_SCALE,
        ANALOGTV_BLANK_LEVEL, ANALOGTV_BLACK_LEVEL, ANALOGTV_CB_LEVEL]
      norm_num
      split_ifs <;> omega

/-- Witness for the amended C2 at the first picture sample of vsync line
3. -/
theorem setup_sync_layout_witness :
    ANALOGTV_PIC_START < ANALOGTV_H ∧
      setup_sync false false 3 ANALOGTV_PIC_START =
        amended_sync_line false false 3 ANALOGTV_PIC_START :=
  ⟨by decide, setup_sync_layout false false 3 ANALOGTV_PIC_START (by decide)⟩

/-- C2 counterexample: on vsync line 3 (no colourburst, no ssavi), sample
`PIC_START` holds the sync level −40, not the BLACK level 10 claimed by the
spec's layout. -/
theorem setup_sync_counterexample :
    setup_sync false false 3 ANALOGTV_PIC_START ≠
      spec_sync_line false false 3 ANALOGTV_PIC_START := by
  decide

/-! ### C6 -/

/-- C6 counterexample: with `avgheight = 3` (which is in `[3, 5)`), row
`h = 2` of the level table has `index 0 = 0` but `index (h−1−0) = 2`:
only the first position is forced to 0, so the row is not symmetric. -/
theorem setup_levels_counterexample :
    setup_levels_index 3 2 0 = 0 ∧ setup_levels_index 3 2 (2 - 1 - 0) = 2 := by
  constructor <;>
    · norm_num [setup_levels_index, applyWrite]

/-- C6 (amended): the level-table rows are symmetric whenever `avgheight`
lies outside `[3, 5)`; inside that interval only position 0 is forced to
index 0 and symmetry fails for heights of at least 2. -/
theorem setup_levels_symmetric (avgheight : ℚ) (h i : ℕ)
    (havg : avgheight < 3 ∨ 5 ≤ avgheight)
    (_hfill : (h : ℚ) < avgheight + 2) (_hmax : h ≤ ANALOGTV_MAX_LINEHEIGHT)
    (hi : i < h) :
    setup_levels_index avgheight h i =
      setup_levels_index avgheight h (h - 1 - i) := by
  unfold setup_levels_index applyWrite
  rcases havg with h3 | h5
  · have n3 : ¬ (3 ≤ avgheight) := by linarith
    have n5 : ¬ (5 ≤ avgheight) := by linarith
    have n7 : ¬ (7 ≤ avgheight) := by linarith
    simp [n3, n5, n7]
  · have y3 : (3 : ℚ) ≤ avgheight := by linarith
    by_cases h7 : (7 : ℚ) ≤ avgheight
    · simp only [h7, y3, h5, true_and]
      split_ifs <;> omega
    · simp only [h7, y3, h5, false_and, if_false, true_and]
      split_ifs <;> omega

/-- Witness for the amended C6 at `avgheight = 5`, `h = 4`, `i = 0`. -/
theorem setup_levels_symmetric_witness :
    ((5 : ℚ) < 3 ∨ (5 : ℚ) ≤ 5) ∧ ((4 : ℕ) : ℚ) < 5 + 2 ∧
      (4 : ℕ) ≤ ANALOGTV_MAX_LINEHEIGHT ∧ 0 < 4 ∧
      setup_levels_index 5 4 0 = setup_levels_index 5 4 (4 - 1 - 0) :=
  ⟨Or.inr (by norm_num), by norm_num, by decide, by norm_num,
    setup_levels_symmetric 5 4 0 (Or.inr (by norm_num)) (by norm_num)
      (by decide) (by norm_num)⟩

/-! ### C9 -/

/-- C9: after the wrap-around copy in `draw` (executed once signal assembly
completes and immediately before `sync()` is called), the receiver buffer
satisfies `rx_signal[SIGNAL_LEN + k] = rx_signal[k]` for every `k < 2·H`. -/
theorem wrapCopy_invariant (f : ℕ → ℚ) (k : ℕ)
    (hk : k < 2 * ANALOGTV_H) :
    wrapCopy f (ANALOGTV_SIGNAL_LEN + k) = wrapCopy f k := by
  have hH : 2 * ANALOGTV_H < ANALOGTV_SIGNAL_LEN := by
    norm_num [ANALOGTV_H, ANALOGTV_SIGNAL_LEN, ANALOGTV_V, ANALOGTV_SCALE]
  unfold wrapCopy
  rw [if_pos ⟨Nat.le_add_right _ _, by omega⟩, if_neg (by omega)]
  simp

/-- Witness for C9 at `k = 0`. -/
theorem wrapCopy_invariant_witness :
    0 < 2 * ANALOGTV_H ∧
      wrapCopy (fun n => (n : ℚ)) (ANALOGTV_SIGNAL_LEN + 0) =
        wrapCopy (fun n => (n : ℚ)) 0 :=
  ⟨by decide, wrapCopy_invariant (fun n => (n : ℚ)) 0 (by decide)⟩

/-! ### C7 -/

/-- C7: a `--size` with two integers and a dimension below 64 makes the
program print usage and exit −1 with no engine started; with both
dimensions at least 64 the size is accepted and odd values are rounded
down to even before use. -/
theorem size_validation (w h maxw maxh : Int) :
    (w < 64 ∨ h < 64 →
      mainSize (some [w, h]) maxw maxh = MainResult.usageExit (-1)) ∧
    (64 ≤ w → 64 ≤ h →
      mainSize (some [w, h]) maxw maxh =
        MainResult.engineRun (w - w % 2) (h - h % 2)) := by
  constructor
  · intro hlt
    have hp : parseSizeArg [w, h] = none := by
      unfold parseSizeArg
      rw [if_neg (by simp)]
      show (if w < 64 ∨ h < 64 then none else some (w, h)) = none
      rw [if_pos hlt]
    simp [mainSize, hp]
  · intro hw hh
    have hp : parseSizeArg [w, h] = some (w, h) := by
      unfold parseSizeArg
      rw [if_neg (by simp)]
      show (if w < 64 ∨ h < 64 then none else some (w, h)) = some (w, h)
      rw [if_neg (by omega)]
    have hne : ¬ (w ≤ 0 ∨ h ≤ 0) := by omega
    simp [mainSize, hp, getBestSize, hne]

/-- Witness for C7: 63×100 is rejected; 641×480 is accepted as 640×480. -/
theorem size_validation_witness :
    ((63 : Int) < 64 ∨ (100 : Int) < 64) ∧
      mainSize (some [(63 : Int), 100]) 320 240 = MainResult.usageExit (-1) ∧
      (64 : Int) ≤ 641 ∧ (64 : Int) ≤ 480 ∧
      mainSize (some [(641 : Int), 480]) 320 240 =
        MainResult.engineRun (641 - 641 % 2) (480 - 480 % 2) :=
  ⟨Or.inl (by norm_num),
    (size_validation 63 100 320 240).1 (Or.inl (by norm_num)),
    by norm_num, by norm_num,
    (size_validation 641 480 320 240).2 (by norm_num) (by norm_num)⟩

/-! ### C3 -/

/-- C3 (evaluation at the failing input): for a channel-change block
starting at sample 4 (`channel_change_cycles > 4`, `ofs = 0`, `level = 1`),
`transit_channels` adds `signal[(start + ofs + i) mod SIGNAL_LEN] =
signal[8]` at global index `i = 4`, not `signal[(ofs + i) mod SIGNAL_LEN] =
signal[4]` as the spec's formula states: on a signal that is 100 at sample
8 and 0 elsewhere the two values differ. -/
theorem transit_channels_failing_input :
    transit_channels (fun n => if n = 8 then 100 else 0) 0 1 4 1 0
        (fun _ => 0) 4 ≠
      (fun _ => (0 : ℚ)) 4 +
        spec_transit_addend (fun n => if n = 8 then 100 else 0) 0 1
          (uniformSymValue (rnd_seekP3 FASTRND_A FASTRND_C 0 4) 50) 4 := by
  unfold transit_channels spec_transit_addend
  simp only [transitLoop]
  norm_num [ANALOGTV_SIGNAL_LEN, ANALOGTV_V, ANALOGTV_H, ANALOGTV_SCALE]
  intro heq
  have hA : (1.3 : ℚ) * noise_decay ^ 4 = 1 := by linarith
  norm_num [noise_decay] at hA

theorem wrapNext_mod (q : ℕ) :
    wrapNext (q % ANALOGTV_SIGNAL_LEN) = (q + 1) % ANALOGTV_SIGNAL_LEN := by
  have hL : ANALOGTV_SIGNAL_LEN = 238944 := by
    norm_num [ANALOGTV_SIGNAL_LEN, ANALOGTV_V, ANALOGTV_H, ANALOGTV_SCALE]
  rw [wrapNext, hL]
  split_ifs with hc <;> omega

theorem addSignalTransitLoop_untouched (signal : ℕ → Int) (level : ℚ) :
    ∀ (todo i p fr : ℕ) (amp : ℚ) (rx : ℕ → ℚ) (j : ℕ),
      j < i ∨ i + todo ≤ j →
      addSignalTransitLoop signal level i todo p fr amp rx j = rx j := by
  intro todo
  induction todo with
  | zero => intro i p fr amp rx j _; rfl
  | succ todo ih =>
      intro i p fr amp rx j hj
      simp only [addSignalTransitLoop]
      rw [ih (i + 1) (wrapNext p) (fastrndStep fr) (amp * noise_decay) _ j
        (by omega)]
      exact if_neg (by omega)

/-- The reference transition loop of `analogtv_add_signal`
(src/src/analogtv.cpp) realises the claimed per-sample formula: started at
global index `i` with pointer `(ofs + i) mod SIGNAL_LEN` and amplitude
`1.3·0.99995^i`, it adds `spec_transit_addend` at every covered index `j`,
with the noise drawn `j − i` steps into the LCG stream. -/
theorem addSignalTransitLoop_spec (signal : ℕ → Int) (ofs : ℕ) (level : ℚ) :
    ∀ (todo i fr : ℕ) (rx : ℕ → ℚ) (j : ℕ), i ≤ j → j < i + todo →
      addSignalTransitLoop signal level i todo
          ((ofs + i) % ANALOGTV_SIGNAL_LEN) fr
          ((1.3 : ℚ) * noise_decay ^ i) rx j =
        rx j + spec_transit_addend signal ofs level
          (uniformSymValue (fastrndStep^[j - i] fr) 50) j := by
  intro todo
  induction todo with
  | zero => intro i fr rx j h1 h2; exact absurd h2 (by omega)
  | succ todo ih =>
      intro i fr rx j h1 h2
      simp only [addSignalTransitLoop]
      rw [wrapNext_mod, Nat.add_assoc ofs i 1,
        show (1.3 : ℚ) * noise_decay ^ i * noise_decay =
          1.3 * noise_decay ^ (i + 1) from by ring]
      by_cases hji : j = i
      · rw [addSignalTransitLoop_untouched signal level todo (i + 1) _ _ _ _
          j (Or.inl (by omega))]
        rw [if_pos hji, hji, Nat.sub_self, Function.iterate_zero_apply,
          spec_transit_addend]
      · rw [ih (i + 1) (fastrndStep fr) _ j (by omega) (by omega)]
        rw [if_neg hji, show j - i = (j - (i + 1)) + 1 from by omega,
          Function.iterate_succ_apply]

/-- The transition part of `analogtv_add_signal` (src/src/analogtv.cpp)
adds exactly `signal[(ofs + j) mod SIGNAL_LEN]·level·(1 − amp) + noise·amp`
with `amp = 1.3·0.99995^j` at every sample `j` of its block — the property
claim C3 states and that the C++ port's `transit_channels` violates. -/
theorem analogtv_add_signal_transit_spec (signal : ℕ → Int) (ofs : ℕ)
    (level : ℚ) (start todo randVal : ℕ) (rx : ℕ → ℚ) (j : ℕ)
    (h1 : start ≤ j) (h2 : j < start + todo) :
    analogtv_add_signal_transit signal ofs level start todo randVal rx j =
      rx j + spec_transit_addend signal ofs level
        (uniformSymValue (fastrndStep^[j - start]
          (rnd_seek FASTRND_A FASTRND_C randVal start)) 50) j := by
  unfold analogtv_add_signal_transit
  rw [Nat.add_comm start ofs]
  exact addSignalTransitLoop_spec signal ofs level todo start
    (rnd_seek FASTRND_A FASTRND_C randVal start) rx j h1 h2

/-! ### C8 and C10: controller lemmas -/

theorem rotateKnobs_frameCounter {R : Type} (ops : RNGOps R)
    (s : RCState R) : (rotateKnobsSwitch ops s).frameCounter =
      s.frameCounter := by
  unfold rotateKnobsSwitch
  dsimp only
  split_ifs <;> rfl

theorem rotateKnobs_lastFrame {R : Type} (ops : RNGOps R) (s : RCState R) :
    (rotateKnobsSwitch ops s).lastFrame = s.lastFrame := by
  unfold rotateKnobsSwitch
  dsimp only
  split_ifs <;> rfl

theorem getNextState_frameCounter {R : Type} (ops : RNGOps R)
    (s : RCState R) :
    (getNextState ops s).frameCounter = s.frameCounter + 1 := by
  unfold getNextState getNext
  dsimp only
  split_ifs <;> simp [rotateKnobs_frameCounter]

theorem getNextState_lastFrame {R : Type} (ops : RNGOps R) (s : RCState R) :
    (getNextState ops s).lastFrame = s.lastFrame := by
  unfold getNextState getNext
  dsimp only
  split_ifs <;> simp [rotateKnobs_lastFrame]

/-- `getNext` reports QUIT exactly when the frame counter has reached
`lastFrame` (the QUIT check runs last and overrides SWITCH/NONE; no branch
of the body touches `frameCounter` or `lastFrame` before it). -/
theorem getNext_quit_iff {R : Type} (ops : RNGOps R) (s : RCState R) :
    (getNext ops s).2.type = OpType.QUIT ↔ s.lastFrame ≤ s.frameCounter := by
  unfold getNext
  dsimp only
  split_ifs with h1 h2 h3 h4 h5 <;>
    simp_all [rotateKnobs_frameCounter, rotateKnobs_lastFrame]

/-! ### C10 -/

/-- C10: QUIT is absorbing.  If a `getNext` call returns QUIT, then every
later call does too: `frameCounter` strictly increases on every call while
`lastFrame` never changes, and QUIT is reported exactly when
`frameCounter ≥ lastFrame`. -/
theorem quit_absorbing {R : Type} (ops : RNGOps R) (s : RCState R) (n : ℕ)
    (h : (getNext ops s).2.type = OpType.QUIT) :
    (getNext ops ((getNextState ops)^[n] (getNextState ops s))).2.type =
      OpType.QUIT := by
  rw [getNext_quit_iff] at h ⊢
  have key : ∀ m : ℕ,
      ((getNextState ops)^[m] (getNextState ops s)).lastFrame =
        s.lastFrame ∧
      ((getNextState ops)^[m] (getNextState ops s)).frameCounter =
        s.frameCounter + 1 + m := by
    intro m
    induction m with
    | zero =>
        simp [getNextState_lastFrame, getNextState_frameCounter]
    | succ m ih =>
        rw [Function.iterate_succ_apply']
        refine ⟨?_, ?_⟩
        · rw [getNextState_lastFrame, ih.1]
        · rw [getNextState_frameCounter, ih.2]
          push_cast
          ring
  obtain ⟨hl, hf⟩ := key n
  rw [hl, hf]
  omega

/-- Witness for C10: a state past `lastFrame` returns QUIT now and two
calls later. -/
theorem quit_absorbing_witness :
    (getNext unitOps c10State).2.type = OpType.QUIT ∧
      (getNext unitOps ((getNextState unitOps)^[2]
          (getNextState unitOps c10State))).2.type = OpType.QUIT :=
  ⟨(getNext_quit_iff unitOps c10State).mpr (by norm_num [c10State]),
    quit_absorbing unitOps c10State 2
      ((getNext_quit_iff unitOps c10State).mpr (by norm_num [c10State]))⟩

/-! ### C8 -/

/-- C8 (amended): when `power_up_down` holds and the frame counter has
passed BOTH the fade-out threshold `(duration − POWERDOWN_DURATION)·fps`
and the power-up window (the power-up branch is checked first and wins
while `frame_counter < POWERUP_DURATION·fps`), `getNext` captures
`last_brightness` on the first such frame (the sentinel is below −10),
sets `brightness = −1.5·(1 − rate) + last_brightness·rate` with
`rate = (duration − curtime)/POWERDOWN_DURATION`, and returns no SWITCH. -/
theorem powerdown_brightness {R : Type} (ops : RNGOps R) (s : RCState R)
    (hpow : s.usePowerUpDown = true)
    (_hfadeRel : s.fadeOutFirstFrame =
      cTrunc ((s.duration - POWERDOWN_DURATION) * s.fps))
    (hpu : s.powerUpLastFrame ≤ s.frameCounter)
    (hfade : s.fadeOutFirstFrame ≤ s.frameCounter) :
    (getNextState ops s).lastBrightness =
      (if s.lastBrightness ≤ -10 then s.brightness else s.lastBrightness) ∧
    (getNextState ops s).brightness =
      (-1.5) * (1 - (s.duration - (s.frameCounter : ℚ) / s.fps) /
          POWERDOWN_DURATION) +
        (if s.lastBrightness ≤ -10 then s.brightness else s.lastBrightness) *
          ((s.duration - (s.frameCounter : ℚ) / s.fps) /
            POWERDOWN_DURATION) ∧
    (getNext ops s).2.type ≠ OpType.SWITCH := by
  have h2 : ¬ s.frameCounter < s.powerUpLastFrame := not_lt.mpr hpu
  unfold getNextState getNext
  dsimp only
  simp only [hpow, h2, hfade, if_true, if_false, ite_true, ite_false,
    if_neg, not_false_eq_true]
  split_ifs <;> simp_all

/-- Witness for the amended C8 at the first fade-out frame of a 9-second
run. -/
theorem powerdown_brightness_witness :
    c8OkState.usePowerUpDown = true ∧
    c8OkState.fadeOutFirstFrame =
      cTrunc ((c8OkState.duration - POWERDOWN_DURATION) * c8OkState.fps) ∧
    c8OkState.powerUpLastFrame ≤ c8OkState.frameCounter ∧
    c8OkState.fadeOutFirstFrame ≤ c8OkState.frameCounter ∧
    ((getNextState unitOps c8OkState).lastBrightness =
      (if c8OkState.lastBrightness ≤ -10 then c8OkState.brightness
        else c8OkState.lastBrightness) ∧
    (getNextState unitOps c8OkState).brightness =
      (-1.5) * (1 - (c8OkState.duration -
          (c8OkState.frameCounter : ℚ) / c8OkState.fps) /
          POWERDOWN_DURATION) +
        (if c8OkState.lastBrightness ≤ -10 then c8OkState.brightness
          else c8OkState.lastBrightness) *
          ((c8OkState.duration -
            (c8OkState.frameCounter : ℚ) / c8OkState.fps) /
            POWERDOWN_DURATION) ∧
    (getNext unitOps c8OkState).2.type ≠ OpType.SWITCH) :=
  ⟨rfl, by norm_num [c8OkState, cTrunc, POWERDOWN_DURATION],
    by norm_num [c8OkState], by norm_num [c8OkState],
    powerdown_brightness unitOps c8OkState rfl
      (by norm_num [c8OkState, cTrunc, POWERDOWN_DURATION])
      (by norm_num [c8OkState]) (by norm_num [c8OkState])⟩

/-- C8 counterexample: at frame 75 of a 3-second `power_up_down` run at
30 fps, the frame counter is past the fade-out threshold
`(duration − POWERDOWN_DURATION)·fps = 60`, yet `getNext` takes the
power-up branch (75 < 180): `brightness` stays 1/50 instead of the
claimed `−1.5·(1 − rate) + last_brightness·rate = −37/50`, and
`last_brightness` is not captured. -/
theorem powerdown_brightness_counterexample :
    (getNextState unitOps c8FailState).brightness = 1 / 50 ∧
    (getNextState unitOps c8FailState).lastBrightness =
      lastBrightnessSentinel ∧
    (1 / 50 : ℚ) ≠
      (-1.5) * (1 - (c8FailState.duration -
          (c8FailState.frameCounter : ℚ) / c8FailState.fps) /
          POWERDOWN_DURATION) +
        (1 / 50) * ((c8FailState.duration -
          (c8FailState.frameCounter : ℚ) / c8FailState.fps) /
          POWERDOWN_DURATION) := by
  refine ⟨?_, ?_, ?_⟩
  · norm_num [getNextState, getNext, rotateKnobsSwitch, unitOps, c8FailState]
  · norm_num [getNextState, getNext, rotateKnobsSwitch, unitOps, c8FailState]
  · norm_num [c8FailState, POWERDOWN_DURATION]

/-! ### C5 -/

theorem loadDest_inj (xoff : Int) (x1 x2 : ℕ)
    (h : loadDest xoff x1 = loadDest xoff x2) : x1 = x2 := by
  unfold loadDest at h
  omega

theorem loadRowIdx_inj (yov : ℕ) (yoff : Int) (y1 y2 : ℕ)
    (h : loadRowIdx yov yoff y1 = loadRowIdx yov yoff y2) : y1 = y2 := by
  unfold loadRowIdx at h
  omega

/-- Positions a row loop never writes (in particular the destinations of
masked columns) keep their previous value. -/
theorem loadRowAux_untouched (multiq : ℕ → Int) (col1 col2 : ℕ → Color)
    (mask : ℕ → Bool) (xoff : Int) (row0 : Int → Int) (n : ℕ) (j : Int)
    (hj : ∀ x : ℕ, x < n → mask x = true → loadDest xoff x ≠ j) :
    (loadRowAux multiq col1 col2 mask xoff row0 n).2 j = row0 j := by
  induction n with
  | zero => rfl
  | succ n ih =>
      have ihh := ih fun x hx hm => hj x (Nat.lt_succ_of_lt hx) hm
      show (loadRowStep multiq col1 col2 mask xoff n
        (loadRowAux multiq col1 col2 mask xoff row0 n)).2 j = row0 j
      unfold loadRowStep
      by_cases hm : mask n = true
      · rw [hm]
        simp only [Bool.true_eq_false, if_false]
        rw [if_neg fun he => hj n (Nat.lt_succ_self n) hm he.symm]
        exact ihh
      · have hm' : mask n = false := by simpa using hm
        rw [hm']
        simp only [eq_self_iff_true, if_true]
        exact ihh

/-- Every destination an unmasked column writes holds a value in
`[0, 125]` once written (later columns write other positions, also
clamped). -/
theorem loadRowAux_written (multiq : ℕ → Int) (col1 col2 : ℕ → Color)
    (mask : ℕ → Bool) (xoff : Int) (row0 : Int → Int) (n x0 : ℕ)
    (hx0 : x0 < n) (hm : mask x0 = true) :
    0 ≤ (loadRowAux multiq col1 col2 mask xoff row0 n).2
        (loadDest xoff x0) ∧
      (loadRowAux multiq col1 col2 mask xoff row0 n).2
        (loadDest xoff x0) ≤ 125 := by
  induction n with
  | zero => exact absurd hx0 (Nat.not_lt_zero x0)
  | succ n ih =>
      show 0 ≤ (loadRowStep multiq col1 col2 mask xoff n
          (loadRowAux multiq col1 col2 mask xoff row0 n)).2
          (loadDest xoff x0) ∧
        (loadRowStep multiq col1 col2 mask xoff n
          (loadRowAux multiq col1 col2 mask xoff row0 n)).2
          (loadDest xoff x0) ≤ 125
      unfold loadRowStep
      by_cases hx : x0 = n
      · subst hx
        rw [hm]
        simp only [Bool.true_eq_false, if_false, eq_self_iff_true, if_true]
        exact ⟨le_min (by norm_num) (le_max_left 0 _), min_le_left _ _⟩
      · have hlt : x0 < n := by omega
        have ihh := ih hlt
        by_cases hmn : mask n = true
        · rw [hmn]
          simp only [Bool.true_eq_false, if_false]
          rw [if_neg fun he => hx (loadDest_inj xoff x0 n he)]
          exact ihh
        · have hmn' : mask n = false := by simpa using hmn
          rw [hmn']
          simp only [eq_self_iff_true, if_true]
          exact ihh

/-- Rows the row loop never writes keep their previous contents. -/
theorem loadXimageAux_untouched (pic : ℕ → ℕ → ℕ)
    (maskIm : Option (ℕ → ℕ → ℕ)) (img_w img_h : ℕ) (multiq : ℕ → Int)
    (xoff yoff : Int) (xlen ysl yov : ℕ) (sig : Int → Int → Int) (n : ℕ)
    (r : Int) (hr : ∀ y : ℕ, y < n → loadRowIdx yov yoff y ≠ r) :
    ∀ j, loadXimageAux pic maskIm img_w img_h multiq xoff yoff xlen ysl yov
      sig n r j = sig r j := by
  induction n with
  | zero => intro j; rfl
  | succ n ih =>
      intro j
      have ihh := ih fun y hy => hr y (Nat.lt_succ_of_lt hy)
      unfold loadXimageAux
      dsimp only
      rw [if_neg fun he => hr n (Nat.lt_succ_self n) he.symm]
      exact ihh j

/-- The final signal matrix at row `loadRowIdx y` (for `y` inside the loop
range) is row `y`'s column loop run on the original contents of that
row. -/
theorem loadXimageAux_row (pic : ℕ → ℕ → ℕ) (maskIm : Option (ℕ → ℕ → ℕ))
    (img_w img_h : ℕ) (multiq : ℕ → Int) (xoff yoff : Int)
    (xlen ysl yov : ℕ) (sig : Int → Int → Int) (n y : ℕ) (hy : y < n) :
    ∀ j, loadXimageAux pic maskIm img_w img_h multiq xoff yoff xlen ysl yov
        sig n (loadRowIdx yov yoff y) j =
      loadRow multiq
        (fun x => pixToColor (pic (loadPicy1 img_h ysl y)
          (loadPicx img_w xlen x)))
        (fun x => pixToColor (pic (loadPicy2 img_h ysl y)
          (loadPicx img_w xlen x)))
        (loadMask maskIm img_w img_h xlen ysl y) xoff xlen
        (sig (loadRowIdx yov yoff y)) j := by
  induction n with
  | zero => exact absurd hy (Nat.not_lt_zero y)
  | succ n ih =>
      intro j
      by_cases hyy : y = n
      · subst hyy
        have hbase : ∀ j', loadXimageAux pic maskIm img_w img_h multiq xoff
            yoff xlen ysl yov sig y (loadRowIdx yov yoff y) j' =
            sig (loadRowIdx yov yoff y) j' :=
          loadXimageAux_untouched pic maskIm img_w img_h multiq xoff yoff
            xlen ysl yov sig y (loadRowIdx yov yoff y)
            (fun y' hy' he => by
              have := loadRowIdx_inj yov yoff y' y he
              omega)
        unfold loadXimageAux
        dsimp only
        rw [if_pos rfl, funext hbase]
      · have hlt : y < n := by omega
        unfold loadXimageAux
        dsimp only
        rw [if_neg fun he => hyy (loadRowIdx_inj yov yoff y n he)]
        exact ih hlt j

/-- C5: every sample `load_ximage` writes is in `[0, 125]` (the composite
is clamped before the store), and every destination sample whose mask
pixel is zero is skipped by `continue` and left unchanged. -/
theorem load_ximage_bounds (pic : ℕ → ℕ → ℕ) (m : ℕ → ℕ → ℕ)
    (img_w img_h : ℕ) (multiq : ℕ → Int)
    (xoff0 yoff0 target_w target_h out_w out_h : Int)
    (sig : Int → Int → Int) (y x : ℕ)
    (hy : y < lxYLen target_h out_h) (hx : x < lxXLen target_w out_w) :
    (m (loadPicy1 img_h (lxYLen target_h out_h) y)
        (loadPicx img_w (lxXLen target_w out_w) x) = 0 →
      load_ximage pic (some m) img_w img_h multiq xoff0 yoff0 target_w
          target_h out_w out_h sig
          (loadRowIdx lxYOverscan (lxYoff yoff0 out_w) y)
          (loadDest (lxXoff xoff0 out_w) x) =
        sig (loadRowIdx lxYOverscan (lxYoff yoff0 out_w) y)
          (loadDest (lxXoff xoff0 out_w) x)) ∧
    (m (loadPicy1 img_h (lxYLen target_h out_h) y)
        (loadPicx img_w (lxXLen target_w out_w) x) ≠ 0 →
      0 ≤ load_ximage pic (some m) img_w img_h multiq xoff0 yoff0 target_w
          target_h out_w out_h sig
          (loadRowIdx lxYOverscan (lxYoff yoff0 out_w) y)
          (loadDest (lxXoff xoff0 out_w) x) ∧
        load_ximage pic (some m) img_w img_h multiq xoff0 yoff0 target_w
          target_h out_w out_h sig
          (loadRowIdx lxYOverscan (lxYoff yoff0 out_w) y)
          (loadDest (lxXoff xoff0 out_w) x) ≤ 125) := by
  have hrow := loadXimageAux_row pic (some m) img_w img_h multiq
    (lxXoff xoff0 out_w) (lxYoff yoff0 out_w) (lxXLen target_w out_w)
    (lxYLen target_h out_h) lxYOverscan sig (lxYLen target_h out_h) y hy
  constructor
  · intro hmask
    have hmf : loadMask (some m) img_w img_h (lxXLen target_w out_w)
        (lxYLen target_h out_h) y x = false := by
      simp [loadMask, hmask]
    unfold load_ximage
    rw [hrow]
    unfold loadRow
    exact loadRowAux_untouched _ _ _ _ _ _ _ _ fun x' hx' hm' he => by
      have hxx : x' = x := loadDest_inj _ x' x he
      subst hxx
      rw [hmf] at hm'
      exact Bool.false_ne_true hm'
  · intro hmask
    have hmt : loadMask (some m) img_w img_h (lxXLen target_w out_w)
        (lxYLen target_h out_h) y x = true := by
      simp [loadMask, hmask]
    unfold load_ximage
    rw [hrow]
    unfold loadRow
    exact loadRowAux_written _ _ _ _ _ _ _ x hx hmt

/-- Witness for C5 on a 2×2 all-gray raster with an all-opaque mask except
source pixel (0,0), rendered 1:1 into a zeroed signal matrix. -/
theorem load_ximage_bounds_witness :
    (0 : ℕ) < lxYLen 240 240 ∧ (0 : ℕ) < lxXLen 320 320 ∧
      ((fun _ _ => (1 : ℕ)) (loadPicy1 2 (lxYLen 240 240) 0)
          (loadPicx 2 (lxXLen 320 320) 0) ≠ 0 →
        0 ≤ load_ximage (fun _ _ => 8421504) (some fun _ _ => 1) 2 2
            (fun _ => 3435) 0 0 320 240 320 240 (fun _ _ => 0)
            (loadRowIdx lxYOverscan (lxYoff 0 320) 0)
            (loadDest (lxXoff 0 320) 0) ∧
          load_ximage (fun _ _ => 8421504) (some fun _ _ => 1) 2 2
            (fun _ => 3435) 0 0 320 240 320 240 (fun _ _ => 0)
            (loadRowIdx lxYOverscan (lxYoff 0 320) 0)
            (loadDest (lxXoff 0 320) 0) ≤ 125) :=
  ⟨by decide, by decide,
    (load_ximage_bounds (fun _ _ => 8421504) (fun _ _ => 1) 2 2
      (fun _ => 3435) 0 0 320 240 320 240 (fun _ _ => 0) 0 0 (by decide)
      (by decide)).2⟩

/-! ### C4 -/

/-- Characterization of the Y delay line of `ntsc_to_yiq`: after `n`
iterations, cell `c` holds the filter output `y_{8−c}` once iteration
`8−c` has produced it, else the scaled input `x_{−c}` once iteration `−c`
has written it, else its initial zero. -/
theorem ntscYMachine_char (a : ℚ) (s : ℕ → ℚ) (n : ℕ) (c : ℤ) :
    ntscYMachine a s n c =
      if 0 ≤ 8 - c ∧ 8 - c < (n : ℤ) then specYRec a s (8 - c).toNat
      else if 0 ≤ -c ∧ -c < (n : ℤ) then s (-c).toNat * ntscYGain * a
      else 0 := by
  induction n generalizing c with
  | zero =>
      show (0 : ℚ) = _
      rw [if_neg (show ¬(0 ≤ 8 - c ∧ 8 - c < ((0 : ℕ) : ℤ)) from by omega),
        if_neg (show ¬(0 ≤ -c ∧ -c < ((0 : ℕ) : ℤ)) from by omega)]
  | succ n ih =>
      show ntscYIter a s (ntscYMachine a s n) n c = _
      unfold ntscYIter writeCell
      dsimp only
      have hdpj : ∀ j : ℤ, 1 ≤ j → j ≤ 6 →
          (if -(n : ℤ) + j = -(n : ℤ) then s n * ntscYGain * a
            else ntscYMachine a s n (-(n : ℤ) + j)) =
          (if (n : ℤ) - j < 0 then 0
            else s ((n : ℤ) - j).toNat * ntscYGain * a) := by
        intro j h1 h6
        rw [if_neg (show ¬(-(n : ℤ) + j = -(n : ℤ)) from by omega), ih]
        rw [show (8 : ℤ) - (-(n : ℤ) + j) = (n : ℤ) + 8 - j from by ring,
          show -(-(n : ℤ) + j) = (n : ℤ) - j from by ring]
        rw [if_neg (show ¬(0 ≤ (n : ℤ) + 8 - j ∧ (n : ℤ) + 8 - j < (n : ℤ))
          from by omega)]
        by_cases hj : (n : ℤ) - j < 0
        · rw [if_neg (show ¬(0 ≤ (n : ℤ) - j ∧ (n : ℤ) - j < (n : ℤ)) from
            by omega), if_pos hj]
        · rw [if_pos (show 0 ≤ (n : ℤ) - j ∧ (n : ℤ) - j < (n : ℤ) from
            by omega), if_neg hj]
      have hdp0 : (if -(n : ℤ) + 0 = -(n : ℤ) then s n * ntscYGain * a
          else ntscYMachine a s n (-(n : ℤ) + 0)) =
          (if (n : ℤ) < 0 then 0 else s (n : ℤ).toNat * ntscYGain * a) := by
        rw [if_pos (show -(n : ℤ) + 0 = -(n : ℤ) from by ring),
          if_neg (show ¬((n : ℤ) < 0) from by omega), Int.toNat_natCast]
      have hdp10 : (if -(n : ℤ) + 10 = -(n : ℤ) then s n * ntscYGain * a
          else ntscYMachine a s n (-(n : ℤ) + 10)) =
          (if h : 2 ≤ n then specYRec a s (n - 2) else 0) := by
        rw [if_neg (show ¬(-(n : ℤ) + 10 = -(n : ℤ)) from by omega), ih]
        rw [show (8 : ℤ) - (-(n : ℤ) + 10) = (n : ℤ) - 2 from by ring,
          show -(-(n : ℤ) + 10) = (n : ℤ) - 10 from by ring]
        by_cases h2 : 2 ≤ n
        · rw [if_pos (show 0 ≤ (n : ℤ) - 2 ∧ (n : ℤ) - 2 < (n : ℤ) from
            by omega), dif_pos h2]
          congr 1
          omega
        · rw [if_neg (show ¬(0 ≤ (n : ℤ) - 2 ∧ (n : ℤ) - 2 < (n : ℤ)) from
            by omega), if_neg (show ¬(0 ≤ (n : ℤ) - 10 ∧ (n : ℤ) - 10 <
            (n : ℤ)) from by omega), dif_neg h2]
      have hdp12 : (if -(n : ℤ) + 12 = -(n : ℤ) then s n * ntscYGain * a
          else ntscYMachine a s n (-(n : ℤ) + 12)) =
          (if h : 4 ≤ n then specYRec a s (n - 4) else 0) := by
        rw [if_neg (show ¬(-(n : ℤ) + 12 = -(n : ℤ)) from by omega), ih]
        rw [show (8 : ℤ) - (-(n : ℤ) + 12) = (n : ℤ) - 4 from by ring,
          show -(-(n : ℤ) + 12) = (n : ℤ) - 12 from by ring]
        by_cases h4 : 4 ≤ n
        · rw [if_pos (show 0 ≤ (n : ℤ) - 4 ∧ (n : ℤ) - 4 < (n : ℤ) from
            by omega), dif_pos h4]
          congr 1
          omega
        · rw [if_neg (show ¬(0 ≤ (n : ℤ) - 4 ∧ (n : ℤ) - 4 < (n : ℤ)) from
            by omega), if_neg (show ¬(0 ≤ (n : ℤ) - 12 ∧ (n : ℤ) - 12 <
            (n : ℤ)) from by omega), dif_neg h4]
      by_cases hc8 : c = -(n : ℤ) + 8
      · subst hc8
        rw [if_pos rfl]
        rw [hdpj 6 (by norm_num) (by norm_num),
          hdpj 5 (by norm_num) (by norm_num),
          hdpj 4 (by norm_num) (by norm_num),
          hdpj 3 (by norm_num) (by norm_num),
          hdpj 2 (by norm_num) (by norm_num),
          hdpj 1 (by norm_num) (by norm_num), hdp0, hdp10, hdp12]
        rw [show (8 : ℤ) - (-(n : ℤ) + 8) = (n : ℤ) from by ring]
        rw [if_pos (show 0 ≤ (n : ℤ) ∧ (n : ℤ) < ((n + 1 : ℕ) : ℤ) from
          by omega), Int.toNat_natCast]
        conv_rhs => rw [specYRec]
        dsimp only
        simp only [Int.toNat_natCast]
        ring
      · rw [if_neg hc8]
        by_cases hc0 : c = -(n : ℤ)
        · subst hc0
          rw [if_pos rfl]
          rw [show (8 : ℤ) - -(n : ℤ) = (n : ℤ) + 8 from by ring,
            show -(-(n : ℤ)) = (n : ℤ) from by ring]
          rw [if_neg (show ¬(0 ≤ (n : ℤ) + 8 ∧ (n : ℤ) + 8 <
            ((n + 1 : ℕ) : ℤ)) from by omega),
            if_pos (show 0 ≤ (n : ℤ) ∧ (n : ℤ) < ((n + 1 : ℕ) : ℤ) from
              by omega), Int.toNat_natCast]
        · rw [if_neg hc0, ih c]
          have hA : (8 : ℤ) - c ≠ (n : ℤ) := fun he => hc8 (by omega)
          have hB : -c ≠ (n : ℤ) := fun he => hc0 (by omega)
          split_ifs <;> first | rfl | omega

/-- C4 (amended): the luminance output of `ntsc_to_yiq` satisfies exactly
the float recurrence `y_n = (x_{n−6}+x_n) + 4(x_{n−5}+x_{n−1}) +
7(x_{n−4}+x_{n−2}) + 8·x_{n−3} − 0.0176648·y_{n−4} − 0.4860288·y_{n−2}`
with input gain `0.0469904257251935·agclevel` — a different filter from
the §4.2 encoder's fixed-point recurrence. -/
theorem ntscY_recurrence (agclevel : ℚ) (signal : ℕ → ℚ) (n : ℕ) :
    ntscY agclevel signal n = specYRec agclevel signal n := by
  unfold ntscY
  rw [ntscYMachine_char]
  rw [show (8 : ℤ) - (-(n : ℤ) + 8) = (n : ℤ) from by ring]
  rw [if_pos (show 0 ≤ (n : ℤ) ∧ (n : ℤ) < ((n + 1 : ℕ) : ℤ) from by omega),
    Int.toNat_natCast]

/-- C4 counterexample: on the impulse `signal 0 = 65536` with
`agclevel = 1`, the decoder's first luminance output is
`65536·0.0469904257251935 ≈ 3079.8`, while the encoder fixed-point filter
claimed by C4 (gain `1897 ≫ 16`) outputs 1897: the two recurrences do not
coincide. -/
theorem ntscY_counterexample :
    ntscY 1 (fun k => if k = 0 then 65536 else 0) 0 ≠
      ((specC4FixedY (fun k => if k = 0 then 65536 else 0) 0 : Int) : ℚ) := by
  have hdec : ntscY 1 (fun k => if k = 0 then 65536 else 0) 0 =
      65536 * ntscYGain := by
    unfold ntscY
    simp only [ntscYMachine, ntscYIter, writeCell]
    norm_num
  have henc : specC4FixedY (fun k => if k = 0 then 65536 else 0) 0 =
      1897 := by
    rw [specC4FixedY]
    norm_num [sar]
    decide
  rw [hdec, henc]
  norm_num [ntscYGain]

end ATV
